import Mathlib

/-!
# Verification of flopy's `ModelTime` temporal discretization core

Shallow embedding of `src/flopy/discretization/modeltime.py` and
`src/flopy/utils/reference.py`.  Python floats are modelled as exact
rationals (`ℚ`); Python strings as `List Char`; Python exceptions as
`Except PyErr`.
-/

namespace Flopy

/-! ## Stress-period schedule (`ModelTime.totim` / `ModelTime.tslen`)

The `totim` property iterates over the periods (`enumerate(nstp_array)`,
indexing `perlen_array[ix]` and `tsmult_array[ix]`; for equal-length
arrays this is the zip of the three sequences), building the flat list
`delt` of step durations, then returns `np.add.accumulate(delt)`
(the inclusive running sum). -/

/-- First-step duration of a period, from `ModelTime.totim` (the `stp == 0`
branch): `perlen * (tsmult - 1) / ((tsmult**nstp) - 1)` when `tsmult != 1.0`,
else `perlen / nstp`. -/
def firstDt (perlen : ℚ) (nstp : ℕ) (tsmult : ℚ) : ℚ :=
  if tsmult ≠ 1 then perlen * (tsmult - 1) / ((tsmult ^ nstp) - 1)
  else perlen / (nstp : ℚ)

/-- One iteration of the inner `for stp in range(nstp)` loop body of
`ModelTime.totim`: the duration appended for step `stp`, given the flat
list `delt` built so far (`delt[-1]` is its last element; the `stp > 0`
branch is only reached with `delt` non-empty, the default `0` is dead). -/
def stepDelt (perlen : ℚ) (nstp : ℕ) (tsmult : ℚ) (delt : List ℚ) (stp : ℕ) : ℚ :=
  if stp = 0 then firstDt perlen nstp tsmult
  else delt.getLastD 0 * tsmult

/-- The inner loop of `ModelTime.totim`, appending durations for steps
`stp, stp+1, …` while the fuel `k` counts the remaining iterations. -/
def stepsLoop (perlen : ℚ) (nstp : ℕ) (tsmult : ℚ) : List ℚ → ℕ → ℕ → List ℚ
  | delt, _, 0 => delt
  | delt, stp, k + 1 =>
      stepsLoop perlen nstp tsmult (delt ++ [stepDelt perlen nstp tsmult delt stp]) (stp + 1) k

/-- The loop `for stp in range(nstp)` for one period, starting from the flat `delt`
list accumulated over the previous periods. -/
def periodDelt (delt : List ℚ) (perlen : ℚ) (nstp : ℕ) (tsmult : ℚ) : List ℚ :=
  stepsLoop perlen nstp tsmult delt 0 nstp

/-- The outer `for ix, nstp in enumerate(nstp_array)` loop of
`ModelTime.totim` over the zipped period data. -/
def deltForPeriods : List ℚ → List (ℚ × ℕ × ℚ) → List ℚ
  | delt, [] => delt
  | delt, (p, n, t) :: rest => deltForPeriods (periodDelt delt p n t) rest

/-- The complete flat `delt` list of `ModelTime.totim`. -/
def deltAll (perlen : List ℚ) (nstp : List ℕ) (tsmult : List ℚ) : List ℚ :=
  deltForPeriods [] (perlen.zip (nstp.zip tsmult))

/-- Helper for `np.add.accumulate`: the running sum from an offset. -/
def accumFrom (a : ℚ) : List ℚ → List ℚ
  | [] => []
  | x :: xs => (a + x) :: accumFrom (a + x) xs

/-- Embeds `np.add.accumulate`: the inclusive running cumulative sum. -/
def accumulate (l : List ℚ) : List ℚ := accumFrom 0 l

/-- Embeds `ModelTime.totim`: `np.add.accumulate(delt)`. -/
def totim_list (perlen : List ℚ) (nstp : List ℕ) (tsmult : List ℚ) : List ℚ :=
  accumulate (deltAll perlen nstp tsmult)

/-- Body of the doubly-nested loop of `ModelTime.tslen`: the state is the
step counter `n` together with the `tslen` list built so far (`if not tslen`
tests emptiness). -/
def tslenStep (totim : List ℚ) (st : ℕ × List ℚ) : ℕ × List ℚ :=
  (st.1 + 1,
    if st.2.isEmpty then [totim.getD st.1 0]
    else st.2 ++ [totim.getD st.1 0 - totim.getD (st.1 - 1) 0])

/-- The inner `for i in range(stp)` loop of `ModelTime.tslen` (fuel `k`). -/
def tslenInner (totim : List ℚ) : ℕ × List ℚ → ℕ → ℕ × List ℚ
  | st, 0 => st
  | st, k + 1 => tslenInner totim (tslenStep totim st) k

/-- The outer `for ix, stp in enumerate(self.nstp)` loop of `ModelTime.tslen`. -/
def tslenOuter (totim : List ℚ) : ℕ × List ℚ → List ℕ → ℕ × List ℚ
  | st, [] => st
  | st, stp :: rest => tslenOuter totim (tslenInner totim st stp) rest

/-- Embeds `ModelTime.tslen`. -/
def tslen_list (perlen : List ℚ) (nstp : List ℕ) (tsmult : List ℚ) : List ℚ :=
  (tslenOuter (totim_list perlen nstp tsmult) (0, []) nstp).2

/-! ### Definitions taken from the spec's words (for the refinement claims) -/

/-- Modelled from the spec: the first step duration of period `i` is
`perlen[i] / nstp[i]` when `tsmult[i] == 1.0` and
`perlen[i] * (tsmult[i] - 1) / (tsmult[i]^nstp[i] - 1)` otherwise. -/
def specFirst (perlen : ℚ) (nstp : ℕ) (tsmult : ℚ) : ℚ :=
  if tsmult = 1 then perlen / (nstp : ℚ)
  else perlen * (tsmult - 1) / ((tsmult ^ nstp) - 1)

/-- Modelled from the spec: step `s` of a period; the first step duration is
`specFirst`, each later step duration is the previous duration times `tsmult`. -/
def specStep (perlen : ℚ) (nstp : ℕ) (tsmult : ℚ) : ℕ → ℚ
  | 0 => specFirst perlen nstp tsmult
  | s + 1 => specStep perlen nstp tsmult s * tsmult

/-- Modelled from the spec: the concatenated per-step durations across all
periods, in order. -/
def specDurations (perlen : List ℚ) (nstp : List ℕ) (tsmult : List ℚ) : List ℚ :=
  (perlen.zip (nstp.zip tsmult)).flatMap
    (fun pd => (List.range pd.2.1).map (specStep pd.1 pd.2.1 pd.2.2))

/-! ## Lemmas about the schedule embedding -/

/-- The geometric duration list of one period: step `s` lasts
`firstDt * tsmult ^ s`. -/
def gd (p : ℚ) (n : ℕ) (t : ℚ) (m : ℕ) : List ℚ :=
  (List.range m).map fun s => firstDt p n t * t ^ s

theorem gd_zero (p : ℚ) (n : ℕ) (t : ℚ) : gd p n t 0 = [] := rfl

theorem gd_succ (p : ℚ) (n : ℕ) (t : ℚ) (m : ℕ) :
    gd p n t (m + 1) = gd p n t m ++ [firstDt p n t * t ^ m] := by
  simp [gd, List.range_succ]

theorem gd_length (p : ℚ) (n : ℕ) (t : ℚ) (m : ℕ) : (gd p n t m).length = m := by
  simp [gd]

theorem getLastD_append_concat (l l' : List ℚ) (x d : ℚ) :
    ((l ++ (l' ++ [x])).getLastD d) = x := by
  rw [← List.append_assoc]
  exact List.getLastD_concat _ _ _

theorem stepsLoop_geom (p : ℚ) (n : ℕ) (t : ℚ) :
    ∀ (k stp : ℕ) (delt0 : List ℚ), 1 ≤ stp →
      stepsLoop p n t (delt0 ++ gd p n t stp) stp k = delt0 ++ gd p n t (stp + k) := by
  intro k
  induction k with
  | zero => intro stp delt0 _; rfl
  | succ k ih =>
    intro stp delt0 hstp
    obtain ⟨j, rfl⟩ := Nat.exists_eq_add_of_le hstp
    rw [stepsLoop]
    have hstep : stepDelt p n t (delt0 ++ gd p n t (1 + j)) (1 + j) =
        firstDt p n t * t ^ (1 + j) := by
      rw [stepDelt, if_neg (by omega)]
      have h1j : 1 + j = j + 1 := by omega
      rw [h1j, gd_succ, getLastD_append_concat]
      ring
    rw [hstep, List.append_assoc, ← gd_succ]
    rw [ih (1 + j + 1) delt0 (by omega)]
    have h3 : 1 + j + 1 + k = 1 + j + (k + 1) := by omega
    rw [h3]

theorem periodDelt_eq (delt : List ℚ) (p : ℚ) (n : ℕ) (t : ℚ) :
    periodDelt delt p n t = delt ++ gd p n t n := by
  cases n with
  | zero => simp [periodDelt, stepsLoop, gd]
  | succ m =>
    rw [periodDelt, stepsLoop]
    have hfirst : stepDelt p (m + 1) t delt 0 = firstDt p (m + 1) t := by
      rw [stepDelt, if_pos rfl]
    rw [hfirst]
    have h1 : delt ++ [firstDt p (m + 1) t] = delt ++ gd p (m + 1) t 1 := by
      have hr : List.range 1 = [0] := rfl
      simp [gd, hr]
    rw [h1, stepsLoop_geom p (m + 1) t m 1 delt (le_refl 1)]
    have h2 : 1 + m = m + 1 := by omega
    rw [h2]

theorem deltForPeriods_eq :
    ∀ (l : List (ℚ × ℕ × ℚ)) (delt : List ℚ),
      deltForPeriods delt l = delt ++ l.flatMap (fun pd => gd pd.1 pd.2.1 pd.2.2 pd.2.1) := by
  intro l
  induction l with
  | nil => intro delt; simp [deltForPeriods]
  | cons pd rest ih =>
    intro delt
    obtain ⟨p, n, t⟩ := pd
    rw [deltForPeriods, periodDelt_eq, ih, List.flatMap_cons, List.append_assoc]

theorem deltAll_eq (perlen : List ℚ) (nstp : List ℕ) (tsmult : List ℚ) :
    deltAll perlen nstp tsmult =
      (perlen.zip (nstp.zip tsmult)).flatMap (fun pd => gd pd.1 pd.2.1 pd.2.2 pd.2.1) := by
  rw [deltAll, deltForPeriods_eq, List.nil_append]

theorem specFirst_eq_firstDt (p : ℚ) (n : ℕ) (t : ℚ) :
    specFirst p n t = firstDt p n t := by
  by_cases h : t = 1 <;> simp [specFirst, firstDt, h]

theorem specStep_eq (p : ℚ) (n : ℕ) (t : ℚ) :
    ∀ s, specStep p n t s = firstDt p n t * t ^ s := by
  intro s
  induction s with
  | zero => simp [specStep, specFirst_eq_firstDt]
  | succ s ih => rw [specStep, ih]; ring

theorem specDurations_eq (perlen : List ℚ) (nstp : List ℕ) (tsmult : List ℚ) :
    specDurations perlen nstp tsmult = deltAll perlen nstp tsmult := by
  rw [specDurations, deltAll_eq]
  congr 1
  funext pd
  simp [gd, specStep_eq]

theorem accumFrom_length (a : ℚ) (l : List ℚ) : (accumFrom a l).length = l.length := by
  induction l generalizing a with
  | nil => rfl
  | cons x xs ih => simp [accumFrom, ih]

theorem accumFrom_getD (l : List ℚ) :
    ∀ (a : ℚ) (k : ℕ), k < l.length →
      (accumFrom a l).getD k 0 = a + (l.take (k + 1)).sum := by
  induction l with
  | nil => intro a k h; simp at h
  | cons x xs ih =>
    intro a k h
    cases k with
    | zero => simp [accumFrom]
    | succ k =>
      rw [accumFrom, List.getD_cons_succ, ih (a + x) k (by simpa using h),
        List.take_succ_cons, List.sum_cons]
      ring

theorem accumulate_length (l : List ℚ) : (accumulate l).length = l.length :=
  accumFrom_length 0 l

theorem accumulate_getD (l : List ℚ) (k : ℕ) (h : k < l.length) :
    (accumulate l).getD k 0 = (l.take (k + 1)).sum := by
  rw [accumulate, accumFrom_getD l 0 k h, zero_add]

theorem flatMap_gd_length :
    ∀ l : List (ℚ × ℕ × ℚ),
      (l.flatMap (fun pd => gd pd.1 pd.2.1 pd.2.2 pd.2.1)).length =
        (l.map (fun pd => pd.2.1)).sum := by
  intro l
  induction l with
  | nil => rfl
  | cons pd rest ih => simp [List.flatMap_cons, gd_length, ih]

theorem zip_map_nstp :
    ∀ (perlen : List ℚ) (nstp : List ℕ) (tsmult : List ℚ),
      perlen.length = nstp.length → tsmult.length = nstp.length →
      (perlen.zip (nstp.zip tsmult)).map (fun pd => pd.2.1) = nstp := by
  intro perlen
  induction perlen with
  | nil =>
    intro nstp tsmult h1 _
    cases nstp with
    | nil => rfl
    | cons n ns => simp at h1
  | cons p ps ih =>
    intro nstp tsmult h1 h2
    cases nstp with
    | nil => simp at h1
    | cons n ns =>
      cases tsmult with
      | nil => simp at h2
      | cons t ts =>
        simp only [List.zip_cons_cons, List.map_cons]
        rw [ih ns ts (by simpa using h1) (by simpa using h2)]

theorem deltAll_length (perlen : List ℚ) (nstp : List ℕ) (tsmult : List ℚ)
    (hlp : perlen.length = nstp.length) (hlt : tsmult.length = nstp.length) :
    (deltAll perlen nstp tsmult).length = nstp.sum := by
  rw [deltAll_eq, flatMap_gd_length, zip_map_nstp perlen nstp tsmult hlp hlt]

/-- The value appended by the `tslen` loop at step counter `m`:
`totim[0]` for the first step, `totim[m] - totim[m-1]` afterwards. -/
def diffAt (t : List ℚ) (m : ℕ) : ℚ :=
  if m = 0 then t.getD 0 0 else t.getD m 0 - t.getD (m - 1) 0

theorem tslenStep_eq (t : List ℚ) (n : ℕ) (acc : List ℚ) (h : acc.length = n) :
    tslenStep t (n, acc) = (n + 1, acc ++ [diffAt t n]) := by
  rw [tslenStep, diffAt]
  cases acc with
  | nil => simp at h; simp [← h]
  | cons x xs =>
    have : n ≠ 0 := by simp at h; omega
    simp [this]

theorem tslenInner_eq (t : List ℚ) :
    ∀ (k n : ℕ) (acc : List ℚ), acc.length = n →
      tslenInner t (n, acc) k = (n + k, acc ++ (List.range' n k).map (diffAt t)) := by
  intro k
  induction k with
  | zero => intro n acc _; simp [tslenInner]
  | succ k ih =>
    intro n acc h
    rw [tslenInner, tslenStep_eq t n acc h,
      ih (n + 1) (acc ++ [diffAt t n]) (by simp [h]), List.range'_succ]
    simp
    omega

theorem tslenOuter_eq (t : List ℚ) :
    ∀ (ns : List ℕ) (n : ℕ) (acc : List ℚ), acc.length = n →
      tslenOuter t (n, acc) ns = (n + ns.sum, acc ++ (List.range' n ns.sum).map (diffAt t)) := by
  intro ns
  induction ns with
  | nil => intro n acc _; simp [tslenOuter]
  | cons stp rest ih =>
    intro n acc h
    rw [tslenOuter, tslenInner_eq t stp n acc h,
      ih (n + stp) (acc ++ (List.range' n stp).map (diffAt t)) (by simp [h]),
      List.append_assoc, ← List.map_append]
    have hr : List.range' n stp ++ List.range' (n + stp) rest.sum =
        List.range' n (stp + rest.sum) := by
      rw [List.range'_append_1, Nat.add_comm rest.sum stp]
    rw [hr]
    simp
    omega

theorem tslen_list_eq_map (perlen : List ℚ) (nstp : List ℕ) (tsmult : List ℚ) :
    tslen_list perlen nstp tsmult =
      (List.range nstp.sum).map (diffAt (totim_list perlen nstp tsmult)) := by
  rw [tslen_list, tslenOuter_eq _ nstp 0 [] rfl]
  simp [List.range_eq_range']

theorem diffAt_accumulate (d : List ℚ) (k : ℕ) (h : k < d.length) :
    diffAt (accumulate d) k = d.getD k 0 := by
  rw [diffAt]
  by_cases h0 : k = 0
  · subst h0
    rw [if_pos rfl, accumulate_getD d 0 h, List.sum_take_succ d 0 h,
      List.getD_eq_getElem d 0 h]
    simp
  · rw [if_neg h0]
    obtain ⟨j, rfl⟩ : ∃ j, k = j + 1 := ⟨k - 1, by omega⟩
    have hj : j < d.length := by omega
    have hred : j + 1 - 1 = j := rfl
    rw [hred, accumulate_getD d (j + 1) h, accumulate_getD d j hj,
      List.sum_take_succ d (j + 1) h, List.getD_eq_getElem d 0 h]
    ring

theorem map_diffAt_accumulate (d : List ℚ) :
    (List.range d.length).map (diffAt (accumulate d)) = d := by
  apply List.ext_getElem (by simp)
  intro i h1 h2
  rw [List.getElem_map, List.getElem_range, diffAt_accumulate d i h2,
    List.getD_eq_getElem d 0 h2]

theorem tslen_eq_deltAll (perlen : List ℚ) (nstp : List ℕ) (tsmult : List ℚ)
    (hlp : perlen.length = nstp.length) (hlt : tsmult.length = nstp.length) :
    tslen_list perlen nstp tsmult = deltAll perlen nstp tsmult := by
  rw [tslen_list_eq_map, totim_list,
    show nstp.sum = (deltAll perlen nstp tsmult).length from
      (deltAll_length perlen nstp tsmult hlp hlt).symm]
  exact map_diffAt_accumulate _

/-! ## Claim theorems for the schedule -/

/-- C1: for every period-data triple with every `nstp[i] ≥ 1`, `totim` is a
flat sequence of length `Σ nstp` equal to the inclusive running cumulative
sum of the concatenated per-period durations, where the first duration of a
period is `perlen/nstp` when `tsmult = 1` and
`perlen*(tsmult-1)/(tsmult^nstp-1)` otherwise, and each later duration is
the previous one times `tsmult`, continuing across period boundaries. -/
theorem totim_matches_spec (perlen tsmult : List ℚ) (nstp : List ℕ)
    (hlp : perlen.length = nstp.length) (hlt : tsmult.length = nstp.length)
    (hn : ∀ n ∈ nstp, 1 ≤ n) :
    (totim_list perlen nstp tsmult).length = nstp.sum ∧
    totim_list perlen nstp tsmult = accumulate (specDurations perlen nstp tsmult) ∧
    ∀ k, k < nstp.sum →
      (totim_list perlen nstp tsmult).getD k 0 =
        ((specDurations perlen nstp tsmult).take (k + 1)).sum := by
  refine ⟨?_, ?_, ?_⟩
  · rw [totim_list, accumulate_length, deltAll_length _ _ _ hlp hlt]
  · rw [totim_list, specDurations_eq]
  · intro k hk
    rw [totim_list, specDurations_eq,
      accumulate_getD _ k (by rw [deltAll_length _ _ _ hlp hlt]; exact hk)]

/-- Witness for C1 at `perlen = [10]`, `nstp = [5]`, `tsmult = [1]`. -/
theorem totim_matches_spec_witness :
    (∀ n ∈ [5], 1 ≤ n) ∧
    ((totim_list [10] [5] [1]).length = [5].sum ∧
     totim_list [10] [5] [1] = accumulate (specDurations [10] [5] [1]) ∧
     ∀ k, k < [5].sum →
       (totim_list [10] [5] [1]).getD k 0 =
         ((specDurations [10] [5] [1]).take (k + 1)).sum) :=
  ⟨by decide, totim_matches_spec [10] [1] [5] rfl rfl (by decide)⟩

theorem getD_map_range (f : ℕ → ℚ) (N k : ℕ) (h : k < N) :
    ((List.range N).map f).getD k 0 = f k := by
  rw [List.getD_eq_getElem _ 0 (by simpa using h), List.getElem_map, List.getElem_range]

theorem firstDt_nonneg (p : ℚ) (n : ℕ) (t : ℚ) (hp : 0 ≤ p) (ht : 0 < t) :
    0 ≤ firstDt p n t := by
  rw [firstDt]
  by_cases h1 : t = 1
  · rw [if_neg (not_not_intro h1)]
    exact div_nonneg hp (Nat.cast_nonneg n)
  · rw [if_pos h1]
    rcases lt_or_gt_of_ne h1 with hlt | hgt
    · refine div_nonneg_iff.mpr (Or.inr ⟨?_, ?_⟩)
      · exact mul_nonpos_iff.mpr (Or.inl ⟨hp, by linarith⟩)
      · have : t ^ n ≤ 1 := pow_le_one₀ (le_of_lt ht) (le_of_lt hlt)
        linarith
    · refine div_nonneg ?_ ?_
      · exact mul_nonneg hp (by linarith)
      · have : (1 : ℚ) ≤ t ^ n := one_le_pow₀ (le_of_lt hgt)
        linarith

theorem deltAll_nonneg (perlen : List ℚ) (nstp : List ℕ) (tsmult : List ℚ)
    (hp : ∀ p ∈ perlen, 0 ≤ p) (ht : ∀ t ∈ tsmult, 0 < t) :
    ∀ x ∈ deltAll perlen nstp tsmult, 0 ≤ x := by
  rw [deltAll_eq]
  intro x hx
  rw [List.mem_flatMap] at hx
  obtain ⟨pd, hpd, hxg⟩ := hx
  obtain ⟨p, n, t⟩ := pd
  have hmem := List.of_mem_zip hpd
  have hmem2 := List.of_mem_zip hmem.2
  rw [gd, List.mem_map] at hxg
  obtain ⟨s, _, rfl⟩ := hxg
  exact mul_nonneg (firstDt_nonneg p n t (hp p hmem.1) (ht t hmem2.2))
    (pow_nonneg (le_of_lt (ht t hmem2.2)) s)

/-- C2: `tslen` has the same length as `totim`, with `tslen[0] = totim[0]`
and `tslen[k] = totim[k] - totim[k-1]` for `k > 0`; `totim` equals the
running cumulative sum of `tslen`, and — given `perlen[i] ≥ 0` and
`tsmult[i] > 0` — `totim` is non-decreasing. -/
theorem tslen_matches_spec (perlen tsmult : List ℚ) (nstp : List ℕ)
    (hlp : perlen.length = nstp.length) (hlt : tsmult.length = nstp.length)
    (hn : ∀ n ∈ nstp, 1 ≤ n) :
    (tslen_list perlen nstp tsmult).length = (totim_list perlen nstp tsmult).length ∧
    (0 < (totim_list perlen nstp tsmult).length →
      (tslen_list perlen nstp tsmult).getD 0 0 = (totim_list perlen nstp tsmult).getD 0 0) ∧
    (∀ k, 0 < k → k < (totim_list perlen nstp tsmult).length →
      (tslen_list perlen nstp tsmult).getD k 0 =
        (totim_list perlen nstp tsmult).getD k 0 -
          (totim_list perlen nstp tsmult).getD (k - 1) 0) ∧
    accumulate (tslen_list perlen nstp tsmult) = totim_list perlen nstp tsmult ∧
    ((∀ p ∈ perlen, 0 ≤ p) → (∀ t ∈ tsmult, 0 < t) →
      ∀ k, k + 1 < (totim_list perlen nstp tsmult).length →
        (totim_list perlen nstp tsmult).getD k 0 ≤
          (totim_list perlen nstp tsmult).getD (k + 1) 0) := by
  have hlen : (totim_list perlen nstp tsmult).length = nstp.sum := by
    rw [totim_list, accumulate_length, deltAll_length _ _ _ hlp hlt]
  refine ⟨?_, ?_, ?_, ?_, ?_⟩
  · rw [tslen_list_eq_map, hlen, List.length_map, List.length_range]
  · intro h0
    rw [tslen_list_eq_map, getD_map_range _ _ 0 (by omega), diffAt, if_pos rfl]
  · intro k hk0 hk
    rw [tslen_list_eq_map, getD_map_range _ _ k (by omega), diffAt, if_neg (by omega)]
  · rw [tslen_eq_deltAll _ _ _ hlp hlt, totim_list]
  · intro hp ht k hk
    have hdlen : (deltAll perlen nstp tsmult).length = nstp.sum :=
      deltAll_length _ _ _ hlp hlt
    have hk1 : k + 1 < (deltAll perlen nstp tsmult).length := by omega
    rw [totim_list, accumulate_getD _ k (by omega), accumulate_getD _ (k + 1) hk1,
      List.sum_take_succ _ (k + 1) hk1]
    have hnn := deltAll_nonneg perlen nstp tsmult hp ht
      ((deltAll perlen nstp tsmult)[k + 1]) (List.getElem_mem hk1)
    linarith

/-- Witness for C2 at `perlen = [10, 6]`, `nstp = [5, 2]`, `tsmult = [1, 2]`. -/
theorem tslen_matches_spec_witness :
    (∀ n ∈ [5, 2], 1 ≤ n) ∧
    ((tslen_list [10, 6] [5, 2] [1, 2]).length = (totim_list [10, 6] [5, 2] [1, 2]).length ∧
     (0 < (totim_list [10, 6] [5, 2] [1, 2]).length →
       (tslen_list [10, 6] [5, 2] [1, 2]).getD 0 0 =
         (totim_list [10, 6] [5, 2] [1, 2]).getD 0 0) ∧
     (∀ k, 0 < k → k < (totim_list [10, 6] [5, 2] [1, 2]).length →
       (tslen_list [10, 6] [5, 2] [1, 2]).getD k 0 =
         (totim_list [10, 6] [5, 2] [1, 2]).getD k 0 -
           (totim_list [10, 6] [5, 2] [1, 2]).getD (k - 1) 0) ∧
     accumulate (tslen_list [10, 6] [5, 2] [1, 2]) = totim_list [10, 6] [5, 2] [1, 2] ∧
     ((∀ p ∈ [(10 : ℚ), 6], 0 ≤ p) → (∀ t ∈ [(1 : ℚ), 2], 0 < t) →
       ∀ k, k + 1 < (totim_list [10, 6] [5, 2] [1, 2]).length →
         (totim_list [10, 6] [5, 2] [1, 2]).getD k 0 ≤
           (totim_list [10, 6] [5, 2] [1, 2]).getD (k + 1) 0)) :=
  ⟨by decide, tslen_matches_spec [10, 6] [1, 2] [5, 2] rfl rfl (by decide)⟩

theorem geom_sum_mul_list (a t : ℚ) :
    ∀ m : ℕ, (((List.range m).map fun s => a * t ^ s).sum) * (t - 1) = a * (t ^ m - 1) := by
  intro m
  induction m with
  | zero => simp
  | succ m ih =>
    rw [List.range_succ, List.map_append, List.sum_append, add_mul, ih]
    simp only [List.map_cons, List.map_nil, List.sum_cons, List.sum_nil, add_zero]
    ring

theorem pow_ne_one_of_pos (t : ℚ) (n : ℕ) (ht : 0 < t) (h1 : t ≠ 1) (hn : 1 ≤ n) :
    t ^ n ≠ 1 := by
  rcases lt_or_gt_of_ne h1 with hlt | hgt
  · exact ne_of_lt (pow_lt_one₀ (le_of_lt ht) hlt (by omega))
  · exact ne_of_gt (one_lt_pow₀ hgt (by omega))

theorem gd_sum (p : ℚ) (n : ℕ) (t : ℚ) (hn : 1 ≤ n) (ht : 0 < t) :
    (gd p n t n).sum = p := by
  by_cases h1 : t = 1
  · subst h1
    rw [gd, firstDt, if_neg (by simp)]
    have hmap : ((List.range n).map fun s => p / (n : ℚ) * 1 ^ s) =
        List.replicate n (p / (n : ℚ)) := by
      have : (fun s : ℕ => p / (n : ℚ) * 1 ^ s) = fun _ : ℕ => p / (n : ℚ) := by
        funext s; simp
      rw [this, List.map_const', List.length_range]
    rw [hmap, List.sum_replicate, nsmul_eq_mul]
    have hn0 : (n : ℚ) ≠ 0 := Nat.cast_ne_zero.mpr (by omega)
    field_simp
  · have htn : t ^ n ≠ 1 := pow_ne_one_of_pos t n ht h1 hn
    have ht1 : t - 1 ≠ 0 := fun h => h1 (by linarith)
    have htn1 : t ^ n - 1 ≠ 0 := fun h => htn (by linarith)
    have hmul := geom_sum_mul_list (firstDt p n t) t n
    rw [← gd] at hmul
    have hfd : firstDt p n t * (t ^ n - 1) = p * (t - 1) := by
      rw [firstDt, if_pos h1]
      field_simp
    rw [hfd] at hmul
    exact mul_right_cancel₀ ht1 (by linarith [hmul])

theorem flatMap_gd_segment :
    ∀ (l : List (ℚ × ℕ × ℚ)) (i : ℕ), i < l.length →
      (((l.flatMap fun pd => gd pd.1 pd.2.1 pd.2.2 pd.2.1).drop
          (((l.take i).map fun pd => pd.2.1).sum)).take ((l.map fun pd => pd.2.1).getD i 0)) =
        (fun pd => gd pd.1 pd.2.1 pd.2.2 pd.2.1) (l.getD i (0, 0, 0)) := by
  intro l
  induction l with
  | nil => intro i hi; simp at hi
  | cons pd rest ih =>
    intro i hi
    cases i with
    | zero =>
      simp only [List.take_zero, List.map_nil, List.sum_nil, List.drop_zero,
        List.flatMap_cons, List.map_cons, List.getD_cons_zero]
      exact List.take_left' (gd_length pd.1 pd.2.1 pd.2.2 pd.2.1)
    | succ i =>
      simp only [List.take_succ_cons, List.map_cons, List.sum_cons, List.flatMap_cons,
        List.getD_cons_succ]
      have hdrop : ∀ (A B : List ℚ) (n S : ℕ), A.length = n →
          (A ++ B).drop (n + S) = B.drop S := by
        intro A B n S h
        subst h
        rw [← List.drop_drop, List.drop_left]
      rw [hdrop _ _ _ _ (gd_length pd.1 pd.2.1 pd.2.2 pd.2.1)]
      exact ih i (by simpa using hi)

/-- C3: for every period `i` with `nstp[i] ≥ 1` and `tsmult[i] > 0`, the sum
of the `tslen` entries of period `i` equals `perlen[i]` exactly over exact
arithmetic; in particular when `nstp[i] = 1` the single step's duration
equals `perlen[i]`, regardless of `tsmult[i]`. -/
theorem tslen_period_sum (perlen tsmult : List ℚ) (nstp : List ℕ)
    (hlp : perlen.length = nstp.length) (hlt : tsmult.length = nstp.length)
    (hn : ∀ n ∈ nstp, 1 ≤ n) (ht : ∀ t ∈ tsmult, 0 < t) :
    ∀ i, i < nstp.length →
      ((((tslen_list perlen nstp tsmult).drop ((nstp.take i).sum)).take
          (nstp.getD i 0)).sum = perlen.getD i 0) ∧
      (nstp.getD i 0 = 1 →
        (tslen_list perlen nstp tsmult).getD ((nstp.take i).sum) 0 = perlen.getD i 0) := by
  intro i hi
  -- Reduce to the flattened per-period geometric lists.
  have hz : (perlen.zip (nstp.zip tsmult)).map (fun pd => pd.2.1) = nstp :=
    zip_map_nstp perlen nstp tsmult hlp hlt
  have hseg := flatMap_gd_segment (perlen.zip (nstp.zip tsmult)) i
    (by rw [List.length_zip, List.length_zip]; omega)
  rw [hz] at hseg
  have htake : ((perlen.zip (nstp.zip tsmult)).take i).map (fun pd => pd.2.1) =
      nstp.take i := by
    rw [List.map_take, hz]
  rw [htake] at hseg
  have hget : (perlen.zip (nstp.zip tsmult)).getD i (0, 0, 0) =
      (perlen.getD i 0, nstp.getD i 0, tsmult.getD i 0) := by
    have hip : i < perlen.length := by omega
    have hit : i < tsmult.length := by omega
    have hiz : i < (perlen.zip (nstp.zip tsmult)).length := by
      rw [List.length_zip, List.length_zip]; omega
    rw [List.getD_eq_getElem _ _ hiz, List.getElem_zip, List.getElem_zip,
      List.getD_eq_getElem _ _ hip, List.getD_eq_getElem _ _ hi,
      List.getD_eq_getElem _ _ hit]
  have hmem_n : nstp.getD i 0 ∈ nstp := by
    rw [List.getD_eq_getElem _ _ hi]; exact List.getElem_mem hi
  have hmem_t : tsmult.getD i 0 ∈ tsmult := by
    have hit : i < tsmult.length := by omega
    rw [List.getD_eq_getElem _ _ hit]; exact List.getElem_mem hit
  have hsum : (((tslen_list perlen nstp tsmult).drop ((nstp.take i).sum)).take
      (nstp.getD i 0)).sum = perlen.getD i 0 := by
    rw [tslen_eq_deltAll _ _ _ hlp hlt, deltAll_eq, hseg, hget]
    exact gd_sum _ _ _ (hn _ hmem_n) (ht _ hmem_t)
  refine ⟨hsum, ?_⟩
  intro h1
  rw [h1] at hsum
  have hlen1 : (nstp.take i).sum < (tslen_list perlen nstp tsmult).length := by
    rw [tslen_eq_deltAll _ _ _ hlp hlt, deltAll_length _ _ _ hlp hlt]
    calc (nstp.take i).sum < (nstp.take i).sum + nstp.getD i 0 := by omega
    _ ≤ (nstp.take (i + 1)).sum := by
        rw [List.getD_eq_getElem _ _ hi, ← List.sum_take_succ nstp i hi]
    _ ≤ nstp.sum := by
        conv_rhs => rw [← List.take_append_drop (i + 1) nstp]
        rw [List.sum_append]; omega
  rw [← hsum]
  have hcons : (tslen_list perlen nstp tsmult).drop ((nstp.take i).sum) =
      (tslen_list perlen nstp tsmult)[(nstp.take i).sum] ::
        (tslen_list perlen nstp tsmult).drop ((nstp.take i).sum + 1) :=
    List.drop_eq_getElem_cons hlen1
  rw [hcons, List.take_succ_cons, List.take_zero, List.sum_cons, List.sum_nil,
    add_zero, List.getD_eq_getElem _ _ hlen1]

/-- Witness for C3 at `perlen = [10, 6]`, `nstp = [1, 2]`, `tsmult = [2, 2]`
(exercising both the `nstp = 1` degenerate period and a geometric period). -/
theorem tslen_period_sum_witness :
    (∀ n ∈ [1, 2], 1 ≤ n) ∧ (∀ t ∈ [(2 : ℚ), 2], 0 < t) ∧
    (∀ i, i < [1, 2].length →
      ((((tslen_list [10, 6] [1, 2] [2, 2]).drop (([1, 2].take i).sum)).take
          ([1, 2].getD i 0)).sum = [(10 : ℚ), 6].getD i 0) ∧
      ([1, 2].getD i 0 = 1 →
        (tslen_list [10, 6] [1, 2] [2, 2]).getD (([1, 2].take i).sum) 0 =
          [(10 : ℚ), 6].getD i 0)) :=
  ⟨by decide, by decide,
    tslen_period_sum [10, 6] [2, 2] [1, 2] rfl rfl (by decide) (by decide)⟩

/-! ## Start moment (`ModelTime.start_datetime` and its views)

Python strings are modelled as `List Char`; `str.split(sep)` for a
one-character separator as `pySplitOn`; `'T' in s` as list membership.
The runtime value stored in `_start_datetime` (and the values flowing out
of the metadata parsers) are modelled by the dynamic `Value` type;
exceptions by `Except PyErr`. -/

/-- A Python string. -/
abbrev PyStr := List Char

/-- Python dynamic values relevant to this module: `None`, `str`, `float`,
`int`, `np.datetime64` and `np.timedelta64` (the two numpy scalars carry
their count of seconds since the epoch / of elapsed seconds; the `[s]`
dtype is assumed, matching `YYYY-mm-ddTHH:MM:SS` resolution). -/
inductive Value where
  | vnone : Value
  | vstr : PyStr → Value
  | vfloat : ℚ → Value
  | vint : ℤ → Value
  | vdt64 : ℤ → Value
  | vtd64 : ℤ → Value
deriving DecidableEq, Repr

/-- Python exceptions raised by this module. -/
inductive PyErr where
  | valueError : PyErr
  | keyError : PyErr
  | indexError : PyErr
  | assertionError : PyErr
deriving DecidableEq, Repr

/-- Embeds `isinstance(v, str)`. -/
def Value.isStr : Value → Bool
  | .vstr _ => true
  | _ => false

/-- Embeds `isinstance(v, np.datetime64)`. -/
def Value.isDt64 : Value → Bool
  | .vdt64 _ => true
  | _ => false

/-- Embeds `isinstance(v, np.timedelta64)`. -/
def Value.isTd64 : Value → Bool
  | .vtd64 _ => true
  | _ => false

/-- Python `str.split(sep)` for a single-character separator: splits at
every occurrence, keeping empty components; always returns at least one
component. -/
def pySplitOn (sep : Char) : PyStr → List PyStr
  | [] => [[]]
  | c :: cs =>
      if c = sep then [] :: pySplitOn sep cs
      else
        match pySplitOn sep cs with
        | [] => [[c]]
        | p :: ps => (c :: p) :: ps

/-- Embeds `sdt.astype('datetime64[D]').astype(sdt.dtype)` on a `datetime64[s]`
value: truncation to midnight of the day (numpy converts datetimes to a
coarser unit by flooring, hence `Int.fdiv`). -/
def midnight (n : ℤ) : ℤ := 86400 * (n.fdiv 86400)

/-- Embeds the `ModelTime.start_date` getter: on `np.datetime64` subtract the
time-of-day; on a `str` containing `'T'` return `split('T')[0]`; otherwise
raise `ValueError`. -/
def start_date_get : Value → Except PyErr Value
  | .vdt64 n => .ok (.vdt64 (n - (n - midnight n)))
  | .vstr s =>
      if 'T' ∈ s then .ok (.vstr ((pySplitOn 'T' s).headD []))
      else .error .valueError
  | _ => .error .valueError

/-- Embeds the `ModelTime.start_time` getter: on `np.datetime64` return the
time-of-day as `np.timedelta64`; on a `str` containing `'T'` return
`split('T')[-1]`; otherwise raise `ValueError`. -/
def start_time_get : Value → Except PyErr Value
  | .vdt64 n => .ok (.vtd64 (n - midnight n))
  | .vstr s =>
      if 'T' ∈ s then .ok (.vstr ((pySplitOn 'T' s).getLastD []))
      else .error .valueError
  | _ => .error .valueError

/-- Embeds the `ModelTime.start_date` setter.  `None` adopts the value wholesale; a
`str` state asserts `isinstance(value, str)` and keeps the existing time
part (`split('T')[-1]`, defaulting to `'00:00:00'`), producing
`value + 'T' + time`; an `np.datetime64` state asserts
`isinstance(value, np.timedelta64)` and computes `value + time`, which in
numpy is a `timedelta64 + timedelta64 = timedelta64`; any other state
falls through unchanged.  The Python method assigns
`self._start_datetime` only as its final statement, so an error leaves
the attribute unchanged. -/
def start_date_set (sdt value : Value) : Except PyErr Value :=
  match sdt with
  | .vnone => .ok value
  | .vstr s =>
      match value with
      | .vstr v =>
          let timePart := if 'T' ∈ s then (pySplitOn 'T' s).getLastD []
                          else "00:00:00".toList
          .ok (.vstr (v ++ 'T' :: timePart))
      | _ => .error .assertionError
  | .vdt64 n =>
      match value with
      | .vtd64 d => .ok (.vtd64 (d + (n - midnight n)))
      | _ => .error .assertionError
  | other => .ok other

/-- Embeds the `ModelTime.start_time` setter.  `None` first defaults to the string
`'1970-1-1T00:00:00'` (the literal in the source); a `str` state asserts
`isinstance(value, str)` and produces `split('T')[0] + 'T' + value`; an
`np.datetime64` state asserts `isinstance(value, np.timedelta64)` and
produces midnight plus the value; any other state falls through
unchanged. -/
def start_time_set (sdt value : Value) : Except PyErr Value :=
  let sdt' := if sdt = .vnone then .vstr "1970-1-1T00:00:00".toList else sdt
  match sdt' with
  | .vstr s =>
      match value with
      | .vstr v => .ok (.vstr ((pySplitOn 'T' s).headD [] ++ 'T' :: v))
      | _ => .error .assertionError
  | .vdt64 n =>
      match value with
      | .vtd64 d => .ok (.vdt64 (midnight n + d))
      | _ => .error .assertionError
  | other => .ok other

/-! ### Lemmas about `pySplitOn` -/

theorem pySplitOn_ne_nil (sep : Char) : ∀ s : PyStr, pySplitOn sep s ≠ [] := by
  intro s
  cases s with
  | nil => simp [pySplitOn]
  | cons c cs =>
    rw [pySplitOn]
    by_cases h : c = sep
    · simp [h]
    · rw [if_neg h]
      cases hrec : pySplitOn sep cs with
      | nil => simp
      | cons p ps => simp

theorem pySplitOn_no_sep (sep : Char) :
    ∀ s : PyStr, (∀ c ∈ s, c ≠ sep) → pySplitOn sep s = [s] := by
  intro s
  induction s with
  | nil => intro _; rfl
  | cons c cs ih =>
    intro h
    rw [pySplitOn, if_neg (h c (List.mem_cons_self c cs)),
      ih (fun x hx => h x (List.mem_cons_of_mem c hx))]

theorem pySplitOn_append (sep : Char) (t : PyStr) :
    ∀ d : PyStr, (∀ c ∈ d, c ≠ sep) →
      pySplitOn sep (d ++ sep :: t) = d :: pySplitOn sep t := by
  intro d
  induction d with
  | nil => intro _; simp [pySplitOn]
  | cons c cs ih =>
    intro h
    rw [List.cons_append, pySplitOn, if_neg (h c (List.mem_cons_self c cs)),
      ih (fun x hx => h x (List.mem_cons_of_mem c hx))]

theorem pySplitOn_getLastD_no_sep (sep : Char) :
    ∀ s : PyStr, ∀ c ∈ (pySplitOn sep s).getLastD [], c ≠ sep := by
  intro s
  induction s with
  | nil => intro c hc; simp [pySplitOn] at hc
  | cons x xs ih =>
    intro c hc
    rw [pySplitOn] at hc
    by_cases hx : x = sep
    · rw [if_pos hx, List.getLastD_cons] at hc
      cases hrec : pySplitOn sep xs with
      | nil => exact absurd hrec (pySplitOn_ne_nil sep xs)
      | cons p ps =>
        rw [hrec] at hc
        rw [← hrec] at hc
        -- the default is irrelevant because `pySplitOn sep xs` is non-empty
        cases hrec2 : pySplitOn sep xs with
        | nil => exact absurd hrec2 (pySplitOn_ne_nil sep xs)
        | cons q qs =>
          rw [hrec2, List.getLastD_cons] at hc
          apply ih c
          rw [hrec2, List.getLastD_cons]
          exact hc
    · rw [if_neg hx] at hc
      cases hrec : pySplitOn sep xs with
      | nil => exact absurd hrec (pySplitOn_ne_nil sep xs)
      | cons p ps =>
        rw [hrec] at hc
        cases ps with
        | nil =>
          have hsing : ([x :: p] : List PyStr).getLastD [] = x :: p := rfl
          rw [hsing] at hc
          rcases List.mem_cons.mp hc with rfl | hcp
          · exact hx
          · apply ih c
            rw [hrec]
            exact hcp
        | cons p2 ps2 =>
          rw [List.getLastD_cons] at hc
          apply ih c
          rw [hrec, List.getLastD_cons, List.getLastD_cons]
          rw [List.getLastD_cons] at hc
          exact hc

/-- The `ModelTime` attributes touched by the start-moment and ingestion
operations (`_start_datetime` and `_time_units`; the period data and the
steady-state flag are never read or written by them and are omitted). -/
structure MT where
  start_datetime : Value
  time_units : Value
deriving DecidableEq, Repr

/-- Embeds `self.start_date = value` on a `ModelTime` object.  On an exception the
attribute keeps its prior value: the Python property setter assigns
`self._start_datetime` only as its final statement, after all asserts. -/
def mtSetStartDate (mt : MT) (v : Value) : MT × Option PyErr :=
  match start_date_set mt.start_datetime v with
  | .ok s => ({ mt with start_datetime := s }, none)
  | .error e => (mt, some e)

/-- Embeds `self.start_time = value` on a `ModelTime` object; the same remark as
for `mtSetStartDate` applies. -/
def mtSetStartTime (mt : MT) (v : Value) : MT × Option PyErr :=
  match start_time_set mt.start_datetime v with
  | .ok s => ({ mt with start_datetime := s }, none)
  | .error e => (mt, some e)

/-! ## Claim theorems for the start moment -/

/-- C8: the date-only and time-only getters raise (`ValueError`, the code's
realization of the spec's `RepresentationError`) on an unset moment and on
a string with no `'T'` separator; on a string `d ++ 'T' ++ t` whose parts
contain no further separator, the date view is `d` and the time view `t`. -/
theorem start_views_split (s d t : PyStr)
    (hs : 'T' ∉ s) (hd : 'T' ∉ d) (ht : 'T' ∉ t) :
    start_date_get .vnone = .error .valueError ∧
    start_time_get .vnone = .error .valueError ∧
    start_date_get (.vstr s) = .error .valueError ∧
    start_time_get (.vstr s) = .error .valueError ∧
    start_date_get (.vstr (d ++ 'T' :: t)) = .ok (.vstr d) ∧
    start_time_get (.vstr (d ++ 'T' :: t)) = .ok (.vstr t) := by
  have hdT : ∀ c ∈ d, c ≠ 'T' := fun c hc he => hd (he ▸ hc)
  have htT : ∀ c ∈ t, c ≠ 'T' := fun c hc he => ht (he ▸ hc)
  have hmem : 'T' ∈ d ++ 'T' :: t := List.mem_append_right d (List.mem_cons_self _ _)
  refine ⟨rfl, rfl, ?_, ?_, ?_, ?_⟩
  · simp [start_date_get, hs]
  · simp [start_time_get, hs]
  · rw [start_date_get, if_pos hmem, pySplitOn_append 'T' t d hdT]
    rfl
  · rw [start_time_get, if_pos hmem, pySplitOn_append 'T' t d hdT,
      List.getLastD_cons, pySplitOn_no_sep 'T' t htT]
    rfl

/-- Witness for C8 at `s = "2020-05-01"`, `d = "2020-05-01"`,
`t = "06:30:00"`. -/
theorem start_views_split_witness :
    ('T' ∉ "2020-05-01".toList ∧ 'T' ∉ "06:30:00".toList) ∧
    (start_date_get .vnone = .error .valueError ∧
     start_time_get .vnone = .error .valueError ∧
     start_date_get (.vstr "2020-05-01".toList) = .error .valueError ∧
     start_time_get (.vstr "2020-05-01".toList) = .error .valueError ∧
     start_date_get (.vstr ("2020-05-01".toList ++ 'T' :: "06:30:00".toList)) =
       .ok (.vstr "2020-05-01".toList) ∧
     start_time_get (.vstr ("2020-05-01".toList ++ 'T' :: "06:30:00".toList)) =
       .ok (.vstr "06:30:00".toList)) :=
  ⟨⟨by decide, by decide⟩,
    start_views_split "2020-05-01".toList "2020-05-01".toList "06:30:00".toList
      (by decide) (by decide) (by decide)⟩

/-- C7 (code bug): on an unset start moment, `start_time = "14:30:00"`
defaults the date to the source literal `'1970-1-1'` — not the ISO form
`'1970-01-01'` documented at the constructor (`# YYYY-mm-ddTHH:MM:SS`) and
required by the claim — so the resulting moment is `"1970-1-1T14:30:00"`,
which differs from the claimed `"1970-01-01T14:30:00"`. -/
theorem set_time_unset_default :
    start_time_set .vnone (.vstr "14:30:00".toList) =
      .ok (.vstr "1970-1-1T14:30:00".toList) ∧
    Value.vstr "1970-1-1T14:30:00".toList ≠ Value.vstr "1970-01-01T14:30:00".toList := by
  exact ⟨rfl, by decide⟩

/-- C4 counterexample: with the structured start moment
`np.datetime64('1970-01-01T06:00:00')` (modelled `vdt64 21600`), setting the
date to `np.timedelta64(1, 'D')` (`vtd64 86400`) stores
`value + time-of-day`, an `np.timedelta64` (`vtd64 108000`) — so the
date-only getter then raises `ValueError` instead of returning the set
date, and the time-only getter raises as well. -/
theorem set_date_structured_counterexample :
    start_date_set (.vdt64 21600) (.vtd64 86400) = .ok (.vtd64 108000) ∧
    start_date_get (.vtd64 108000) = .error .valueError ∧
    start_time_get (.vtd64 108000) = .error .valueError :=
  ⟨rfl, rfl, rfl⟩

/-- C4 amended: when the prior start moment is a string containing the
`'T'` separator and the new date `d` is a string without it, `set_date(d)`
makes the date getter return `d` and leaves the time getter's result
unchanged; in the structured (`np.datetime64`) case the setter instead
produces `value + time-of-day`, an `np.timedelta64`, losing the structured
representation. -/
theorem set_date_roundtrip_string (s d : PyStr) (hs : 'T' ∈ s) (hd : 'T' ∉ d) :
    (start_date_set (.vstr s) (.vstr d) =
       .ok (.vstr (d ++ 'T' :: (pySplitOn 'T' s).getLastD [])) ∧
     start_date_get (.vstr (d ++ 'T' :: (pySplitOn 'T' s).getLastD [])) =
       .ok (.vstr d) ∧
     start_time_get (.vstr (d ++ 'T' :: (pySplitOn 'T' s).getLastD [])) =
       start_time_get (.vstr s)) ∧
    (∀ n v : ℤ, start_date_set (.vdt64 n) (.vtd64 v) =
       .ok (.vtd64 (v + (n - midnight n)))) := by
  have hdT : ∀ c ∈ d, c ≠ 'T' := fun c hc he => hd (he ▸ hc)
  have hlast := pySplitOn_getLastD_no_sep 'T' s
  have hmem : 'T' ∈ d ++ 'T' :: (pySplitOn 'T' s).getLastD [] :=
    List.mem_append_right d (List.mem_cons_self _ _)
  refine ⟨⟨?_, ?_, ?_⟩, fun n v => rfl⟩
  · rw [start_date_set]
    simp [hs]
  · rw [start_date_get, if_pos hmem, pySplitOn_append 'T' _ d hdT]
    rfl
  · rw [start_time_get, if_pos hmem, pySplitOn_append 'T' _ d hdT,
      List.getLastD_cons, pySplitOn_no_sep 'T' _ hlast,
      start_time_get, if_pos hs]
    rfl

/-- Witness for C4's amended theorem at prior moment
`"2020-05-01T06:30:00"` and new date `"2020-06-15"`. -/
theorem set_date_roundtrip_string_witness :
    ('T' ∈ "2020-05-01T06:30:00".toList ∧ 'T' ∉ "2020-06-15".toList) ∧
    ((start_date_set (.vstr "2020-05-01T06:30:00".toList) (.vstr "2020-06-15".toList) =
        .ok (.vstr ("2020-06-15".toList ++ 'T' ::
          (pySplitOn 'T' "2020-05-01T06:30:00".toList).getLastD [])) ∧
      start_date_get (.vstr ("2020-06-15".toList ++ 'T' ::
          (pySplitOn 'T' "2020-05-01T06:30:00".toList).getLastD [])) =
        .ok (.vstr "2020-06-15".toList) ∧
      start_time_get (.vstr ("2020-06-15".toList ++ 'T' ::
          (pySplitOn 'T' "2020-05-01T06:30:00".toList).getLastD [])) =
        start_time_get (.vstr "2020-05-01T06:30:00".toList)) ∧
     (∀ n v : ℤ, start_date_set (.vdt64 n) (.vtd64 v) =
        .ok (.vtd64 (v + (n - midnight n))))) :=
  ⟨⟨by decide, by decide⟩,
    set_date_roundtrip_string "2020-05-01T06:30:00".toList "2020-06-15".toList
      (by decide) (by decide)⟩

/-- C10: the component setters require the new value's type to match the
active representation — `str` for a string state (and, in the time setter,
for an unset state after it defaults to a string), `np.timedelta64` for an
`np.datetime64` state; a mismatched value fails the `assert` before the
attribute assignment, so the stored moment is unchanged. -/
theorem setter_type_assertions (mt : MT) (v : Value) :
    ((∃ s, mt.start_datetime = .vstr s) → v.isStr = false →
      mtSetStartDate mt v = (mt, some .assertionError) ∧
      mtSetStartTime mt v = (mt, some .assertionError)) ∧
    ((∃ n, mt.start_datetime = .vdt64 n) → v.isTd64 = false →
      mtSetStartDate mt v = (mt, some .assertionError) ∧
      mtSetStartTime mt v = (mt, some .assertionError)) ∧
    (mt.start_datetime = .vnone → v.isStr = false →
      mtSetStartTime mt v = (mt, some .assertionError)) := by
  refine ⟨?_, ?_, ?_⟩
  · rintro ⟨s, hsd⟩ hv
    constructor
    · rw [mtSetStartDate, hsd, start_date_set]
      cases v <;> simp_all [Value.isStr, Value.isTd64]
    · rw [mtSetStartTime, hsd, start_time_set]
      cases v <;> simp_all [Value.isStr, Value.isTd64]
  · rintro ⟨n, hsd⟩ hv
    constructor
    · rw [mtSetStartDate, hsd, start_date_set]
      cases v <;> simp_all [Value.isStr, Value.isTd64]
    · rw [mtSetStartTime, hsd, start_time_set]
      cases v <;> simp_all [Value.isStr, Value.isTd64]
  · intro hsd hv
    rw [mtSetStartTime, hsd, start_time_set]
    cases v <;> simp_all [Value.isStr, Value.isTd64]

/-- Witness for C10: an `int` value against a string state, and a string
value against a structured state. -/
theorem setter_type_assertions_witness :
    ((Value.vint 3).isStr = false ∧ (Value.vstr "2020-06-15".toList).isTd64 = false) ∧
    mtSetStartDate ⟨.vstr "2020-01-01T00:00:00".toList, .vstr "days".toList⟩ (.vint 3) =
      (⟨.vstr "2020-01-01T00:00:00".toList, .vstr "days".toList⟩, some .assertionError) ∧
    mtSetStartTime ⟨.vdt64 0, .vstr "days".toList⟩ (.vstr "2020-06-15".toList) =
      (⟨.vdt64 0, .vstr "days".toList⟩, some .assertionError) ∧
    mtSetStartTime ⟨.vnone, .vstr "days".toList⟩ (.vint 3) =
      (⟨.vnone, .vstr "days".toList⟩, some .assertionError) :=
  ⟨⟨rfl, rfl⟩,
    ((setter_type_assertions ⟨.vstr "2020-01-01T00:00:00".toList, .vstr "days".toList⟩
        (.vint 3)).1 ⟨_, rfl⟩ rfl).1,
    ((setter_type_assertions ⟨.vdt64 0, .vstr "days".toList⟩
        (.vstr "2020-06-15".toList)).2.1 ⟨_, rfl⟩ rfl).2,
    (setter_type_assertions ⟨.vnone, .vstr "days".toList⟩ (.vint 3)).2.2 rfl rfl⟩

/-! ## External metadata parsers (`src/flopy/utils/reference.py`)

File contents are modelled as a list of raw lines, each including its
trailing newline where the file has one (so `len(line)` and `strip()`
behave as in Python's file iteration). -/

/-- Python whitespace for `str.strip()` / `str.split()`:
space, `\t`, `\n`, `\r`, `\x0b`, `\x0c`. -/
def isPySpace (c : Char) : Bool :=
  c = ' ' ∨ c = '\t' ∨ c = '\n' ∨ c = '\r' ∨ c = Char.ofNat 11 ∨ c = Char.ofNat 12

/-- Python `str.strip()`. -/
def pyStrip (s : PyStr) : PyStr :=
  ((s.dropWhile isPySpace).reverse.dropWhile isPySpace).reverse

/-- Python `line.startswith("#")`. -/
def startsWithHash : PyStr → Bool
  | '#' :: _ => true
  | _ => false

/-- Python `str.split()` with no separator: splits on whitespace runs and
drops empty components. -/
def wsSplit (s : PyStr) : List PyStr :=
  (s.foldr
    (fun c acc =>
      if isPySpace c then [] :: acc
      else
        match acc with
        | [] => [[c]]
        | w :: ws => (c :: w) :: ws)
    []).filter (fun w => ¬w.isEmpty)

/-- A Python `dict` with string keys, as an insertion-ordered association
list; assignment to an existing key overwrites in place. -/
abbrev Dict := List (PyStr × Value)

/-- Embeds `ref[key] = val`. -/
def dictSet (ref : Dict) (k : PyStr) (v : Value) : Dict :=
  if ref.any (fun kv => kv.1 = k) then
    ref.map (fun kv => if kv.1 = k then (k, v) else kv)
  else ref ++ [(k, v)]

/-- Embeds `ref.get(key, None)` as an `Option`. -/
def dictGet (ref : Dict) (k : PyStr) : Option Value :=
  (ref.find? (fun kv => kv.1 = k)).map (fun kv => kv.2)

/-- The per-key value types of the two `caster` tables. -/
inductive CastKind where
  | cfloat : CastKind
  | cint : CastKind
  | cstr : CastKind
deriving DecidableEq, Repr

/-- The `caster` table of `read_attribs_from_namfile_header`. -/
def namCaster (k : PyStr) : Option CastKind :=
  if k = "xll".toList then some .cfloat
  else if k = "yll".toList then some .cfloat
  else if k = "xul".toList then some .cfloat
  else if k = "yul".toList then some .cfloat
  else if k = "rotation".toList then some .cfloat
  else if k = "epsg".toList then some .cint
  else if k = "proj4_str".toList then some .cstr
  else if k = "start_date".toList then some .cstr
  else if k = "start_datetime".toList then some .cstr
  else if k = "start".toList then some .cstr
  else none

/-- The `caster` table of `read_usgs_model_reference_file` (note: no
`start_time` and no `time_units` key). -/
def usgsCaster (k : PyStr) : Option CastKind :=
  if k = "xll".toList then some .cfloat
  else if k = "yll".toList then some .cfloat
  else if k = "xul".toList then some .cfloat
  else if k = "yul".toList then some .cfloat
  else if k = "rotation".toList then some .cfloat
  else if k = "epsg".toList then some .cint
  else if k = "proj4".toList then some .cstr
  else if k = "start_date".toList then some .cstr
  else none

/-- Digit string to `ℕ`. -/
def digitsToNat (l : List Char) : ℕ :=
  l.foldl (fun acc c => acc * 10 + (c.toNat - '0'.toNat)) 0

/-- All characters are ASCII digits. -/
def allDigits (l : List Char) : Bool := l.all (fun c => c.isDigit)

/-- Models Python `float(str)` on plain decimal literals (surrounding
whitespace, an optional sign, integer digits, an optional fractional
part).  Exponents and `inf`/`nan` spellings do not occur in this
repository's data and are not modelled.  `none` models `ValueError`. -/
def pyFloat? (s : PyStr) : Option ℚ :=
  let s := pyStrip s
  let signRest : ℚ × PyStr :=
    match s with
    | '-' :: r => (-1, r)
    | '+' :: r => (1, r)
    | r => (1, r)
  match pySplitOn '.' signRest.2 with
  | [ip] =>
      if allDigits ip ∧ ip ≠ [] then some (signRest.1 * (digitsToNat ip : ℚ)) else none
  | [ip, fp] =>
      if allDigits ip ∧ allDigits fp ∧ (ip ≠ [] ∨ fp ≠ []) then
        some (signRest.1 * ((digitsToNat ip : ℚ) + (digitsToNat fp : ℚ) / (10 : ℚ) ^ fp.length))
      else none
  | _ => none

/-- Models Python `int(str)`: surrounding whitespace, optional sign,
decimal digits only.  `none` models `ValueError`. -/
def pyInt? (s : PyStr) : Option ℤ :=
  let s := pyStrip s
  let signRest : ℤ × PyStr :=
    match s with
    | '-' :: r => (-1, r)
    | '+' :: r => (1, r)
    | r => (1, r)
  if allDigits signRest.2 ∧ signRest.2 ≠ [] then
    some (signRest.1 * (digitsToNat signRest.2 : ℤ))
  else none

/-- Embeds `caster[key](item)`: apply the per-key cast; a failed cast raises
`ValueError`. -/
def applyCast (ck : CastKind) (item : PyStr) : Except PyErr Value :=
  match ck with
  | .cfloat =>
      match pyFloat? item with
      | some q => .ok (.vfloat q)
      | none => .error .valueError
  | .cint =>
      match pyInt? item with
      | some n => .ok (.vint n)
      | none => .error .valueError
  | .cstr => .ok (.vstr item)

/-- The header token list of `read_attribs_from_namfile_header`: leading
`#` lines, each stripped, with every `'#'` removed, split on `';'`,
concatenated. -/
def namHeaderTokens (lines : List PyStr) : List PyStr :=
  (lines.takeWhile startsWithHash).flatMap
    (fun l => pySplitOn ';' ((pyStrip l).filter (fun c => c ≠ '#')))

/-- One iteration of the `for key, *item in header` loop of
`read_attribs_from_namfile_header`: `item[0]` on an empty tail raises
`IndexError`; `caster[key]` on an unrecognized key raises `KeyError`
(neither is caught — the `try` only catches `ValueError` from the cast,
which is passed over); a cast value equal to the string `"none"` is
replaced by `None`. -/
def namStep (ref : Dict) (entry : List PyStr) : Except PyErr Dict :=
  let key := entry.headD []
  let itemE : Except PyErr PyStr :=
    if key ≠ "proj4_str".toList then
      match entry.tail with
      | [] => .error .indexError
      | i :: _ => .ok i
    else .ok (List.intercalate [':'] entry.tail)
  match itemE with
  | .error e => .error e
  | .ok item =>
      match namCaster key with
      | none => .error .keyError
      | some ck =>
          match applyCast ck item with
          | .error _ => .ok ref
          | .ok v =>
              .ok (dictSet ref key (if v = .vstr "none".toList then .vnone else v))

/-- The `for key, *item in header` loop. -/
def namFold : Dict → List (List PyStr) → Except PyErr Dict
  | ref, [] => .ok ref
  | ref, e :: rest =>
      match namStep ref e with
      | .error err => .error err
      | .ok ref' => namFold ref' rest

/-- Embeds `read_attribs_from_namfile_header`. -/
def read_attribs_from_namfile_header (lines : List PyStr) : Except PyErr Dict :=
  namFold [] ((namHeaderTokens lines).map (pySplitOn ':'))

/-- One line of `read_usgs_model_reference_file`: skip short lines and
comment lines (`line.strip()[0]` raises `IndexError` on a whitespace-only
line of length > 1); split the pre-`#` part into key and data tokens;
apply the cast — unguarded, so a failed cast raises `ValueError`. -/
def usgsStep (ref : Dict) (line : PyStr) : Except PyErr Dict :=
  if line.length ≤ 1 then .ok ref
  else
    match pyStrip line with
    | [] => .error .indexError
    | c :: cs =>
        if c = '#' then .ok ref
        else
          match wsSplit (pyStrip ((pySplitOn '#' (c :: cs)).headD [])) with
          | [] => .error .valueError
          | key :: data =>
              if 1 ≤ data.length then
                match usgsCaster key with
                | none => .ok ref
                | some ck =>
                    match applyCast ck (List.intercalate [' '] data) with
                    | .error e => .error e
                    | .ok v => .ok (dictSet ref key v)
              else .ok ref

/-- The line loop of `read_usgs_model_reference_file`. -/
def usgsFold : Dict → List PyStr → Except PyErr Dict
  | ref, [] => .ok ref
  | ref, l :: rest =>
      match usgsStep ref l with
      | .error err => .error err
      | .ok ref' => usgsFold ref' rest

/-- Embeds `read_usgs_model_reference_file`. -/
def read_usgs_model_reference_file (lines : List PyStr) : Except PyErr Dict :=
  usgsFold [] lines

/-! ## `ModelTime` ingestion operations -/

/-- Python truthiness of the values that can occur here (`if val:`);
`vdt64`/`vtd64` cannot flow out of the parsers, their truthiness is given
for totality only. -/
def truthy : Value → Bool
  | .vnone => false
  | .vstr s => ¬s.isEmpty
  | .vfloat q => q ≠ 0
  | .vint n => n ≠ 0
  | .vdt64 _ => true
  | .vtd64 n => n ≠ 0

/-- Embeds `for ref_key in ref_keys: val = ref.get(ref_key, None); if val: … break`:
the first alias whose value is present and truthy. -/
def firstTruthy (ref : Dict) : List PyStr → Option Value
  | [] => none
  | k :: ks =>
      match dictGet ref k with
      | some v => if truthy v then some v else firstTruthy ref ks
      | none => firstTruthy ref ks

/-- Embeds `ModelTime.attribs_from_namfile_header`: `None` returns `False`;
otherwise the header is parsed and, in order, the attribute `start_date`
(aliases `['start_date', 'start']`) and then `start_time`
(`['start_time']`) are assigned — through the *property setters* — from
the first truthy alias value, and `True` is returned. -/
def attribs_from_namfile_header (mt : MT) (namefile : Option (List PyStr)) :
    Except PyErr (Bool × MT) :=
  match namefile with
  | none => .ok (false, mt)
  | some lines =>
      match read_attribs_from_namfile_header lines with
      | .error e => .error e
      | .ok ref =>
          let step1 : Except PyErr MT :=
            match firstTruthy ref ["start_date".toList, "start".toList] with
            | some v =>
                match start_date_set mt.start_datetime v with
                | .error e => .error e
                | .ok s => .ok { mt with start_datetime := s }
            | none => .ok mt
          match step1 with
          | .error e => .error e
          | .ok mt1 =>
              match firstTruthy ref ["start_time".toList] with
              | some v =>
                  match start_time_set mt1.start_datetime v with
                  | .error e => .error e
                  | .ok s => .ok (true, { mt1 with start_datetime := s })
              | none => .ok (true, mt1)

/-- Embeds `ModelTime.read_usgs_model_reference_file`: a missing file (`none`)
returns `False`; otherwise the file is parsed and, in the table's
insertion order, `start_date` (property setter), `start_time` (property
setter) and `_time_units` (plain attribute) are assigned from their keys
when present and truthy, and `True` is returned. -/
def mt_read_usgs_model_reference_file (mt : MT) (reffile : Option (List PyStr)) :
    Except PyErr (Bool × MT) :=
  match reffile with
  | none => .ok (false, mt)
  | some lines =>
      match read_usgs_model_reference_file lines with
      | .error e => .error e
      | .ok ref =>
          let s1 : Except PyErr MT :=
            match dictGet ref "start_date".toList with
            | some v =>
                if truthy v then
                  match start_date_set mt.start_datetime v with
                  | .error e => .error e
                  | .ok s => .ok { mt with start_datetime := s }
                else .ok mt
            | none => .ok mt
          match s1 with
          | .error e => .error e
          | .ok mt1 =>
              let s2 : Except PyErr MT :=
                match dictGet ref "start_time".toList with
                | some v =>
                    if truthy v then
                      match start_time_set mt1.start_datetime v with
                      | .error e => .error e
                      | .ok s => .ok { mt1 with start_datetime := s }
                    else .ok mt1
                | none => .ok mt1
              match s2 with
              | .error e => .error e
              | .ok mt2 =>
                  match dictGet ref "time_units".toList with
                  | some v =>
                      if truthy v then .ok (true, { mt2 with time_units := v })
                      else .ok (true, mt2)
                  | none => .ok (true, mt2)

/-! ### Well-formedness of namfile-parser output -/

/-- Every entry written by the namfile parser has a recognized key, and a
string-cast key holds a string (or `None`, after the `"none"` rewrite). -/
def refEntryOk (kv : PyStr × Value) : Prop :=
  match namCaster kv.1 with
  | some .cstr => kv.2 = .vnone ∨ ∃ s, kv.2 = .vstr s
  | some _ => True
  | none => False

theorem dictSet_mem (ref : Dict) (k : PyStr) (v : Value) :
    ∀ kv ∈ dictSet ref k v, kv = (k, v) ∨ kv ∈ ref := by
  intro kv h
  rw [dictSet] at h
  by_cases hany : ref.any (fun kv => decide (kv.1 = k))
  · rw [if_pos hany] at h
    rw [List.mem_map] at h
    obtain ⟨kv', hkv', heq⟩ := h
    by_cases hk : kv'.1 = k
    · left; rw [← heq, if_pos hk]
    · right; rw [← heq, if_neg hk]; exact hkv'
  · rw [if_neg hany, List.mem_append] at h
    rcases h with h | h
    · right; exact h
    · left; simpa using h

theorem refEntryOk_write (key : PyStr) (ck : CastKind) (item : PyStr) (v : Value)
    (hck : namCaster key = some ck) (hv : applyCast ck item = .ok v) :
    refEntryOk (key, if v = .vstr "none".toList then .vnone else v) := by
  rw [refEntryOk]
  simp only
  rw [hck]
  cases ck with
  | cfloat => trivial
  | cint => trivial
  | cstr =>
    rw [applyCast] at hv
    injection hv with hv'
    by_cases hnone : v = Value.vstr "none".toList
    · rw [if_pos hnone]; left; rfl
    · rw [if_neg hnone]; right; exact ⟨item, hv'.symm⟩

theorem namStep_inv (ref ref' : Dict) (e : List PyStr)
    (h : namStep ref e = .ok ref') (hinv : ∀ kv ∈ ref, refEntryOk kv) :
    ∀ kv ∈ ref', refEntryOk kv := by
  rw [namStep] at h
  split at h
  · exact absurd h (by simp)
  · split at h
    · exact absurd h (by simp)
    · split at h
      · -- cast failure: `ref` unchanged
        injection h with h'
        rw [← h']
        exact hinv
      · -- success: `dictSet`
        injection h with h'
        rw [← h']
        intro kv hkv
        rcases dictSet_mem _ _ _ kv hkv with rfl | hmem
        · apply refEntryOk_write <;> assumption
        · exact hinv kv hmem

theorem namFold_inv :
    ∀ (entries : List (List PyStr)) (ref ref' : Dict),
      namFold ref entries = .ok ref' → (∀ kv ∈ ref, refEntryOk kv) →
      ∀ kv ∈ ref', refEntryOk kv := by
  intro entries
  induction entries with
  | nil =>
    intro ref ref' h hinv
    rw [namFold] at h
    injection h with h'
    rw [← h']
    exact hinv
  | cons e rest ih =>
    intro ref ref' h hinv
    rw [namFold] at h
    split at h
    · exact absurd h (by simp)
    · rename_i ref'' hstep
      exact ih ref'' ref' h (namStep_inv ref ref'' e hstep hinv)

theorem read_attribs_inv (lines : List PyStr) (ref : Dict)
    (h : read_attribs_from_namfile_header lines = .ok ref) :
    ∀ kv ∈ ref, refEntryOk kv :=
  namFold_inv _ [] ref h (by intro kv hkv; simp at hkv)

theorem dictGet_mem (ref : Dict) (k : PyStr) (v : Value) (h : dictGet ref k = some v) :
    (k, v) ∈ ref := by
  rw [dictGet] at h
  cases hfind : ref.find? (fun kv => decide (kv.1 = k)) with
  | none => rw [hfind] at h; simp at h
  | some kv =>
    rw [hfind] at h
    simp only [Option.map_some'] at h
    injection h with h'
    have hmem := List.mem_of_find?_eq_some hfind
    have hkey : kv.1 = k := by simpa using List.find?_some hfind
    obtain ⟨k', v'⟩ := kv
    simp only at hkey h'
    rw [← hkey, ← h']
    exact hmem

theorem dictGet_unrecognized_none (ref : Dict) (hinv : ∀ kv ∈ ref, refEntryOk kv)
    (k : PyStr) (hk : namCaster k = none) : dictGet ref k = none := by
  cases h : dictGet ref k with
  | none => rfl
  | some v =>
    have := hinv _ (dictGet_mem _ _ _ h)
    rw [refEntryOk] at this
    simp only at this
    rw [hk] at this
    exact this.elim

theorem dictGet_strkey_shape (ref : Dict) (hinv : ∀ kv ∈ ref, refEntryOk kv)
    (k : PyStr) (hk : namCaster k = some .cstr) (v : Value)
    (h : dictGet ref k = some v) : v = .vnone ∨ ∃ s, v = .vstr s := by
  have := hinv _ (dictGet_mem _ _ _ h)
  rw [refEntryOk] at this
  simp only at this
  rw [hk] at this
  exact this

theorem firstTruthy_str_aliases (ref : Dict) (hinv : ∀ kv ∈ ref, refEntryOk kv) :
    ∀ ks : List PyStr, (∀ k ∈ ks, namCaster k = some .cstr) →
      firstTruthy ref ks = none ∨
        ∃ d, d ≠ [] ∧ firstTruthy ref ks = some (.vstr d) := by
  intro ks
  induction ks with
  | nil => intro _; left; rfl
  | cons k ks ih =>
    intro hks
    rw [firstTruthy]
    cases hget : dictGet ref k with
    | none => exact ih (fun x hx => hks x (List.mem_cons_of_mem k hx))
    | some v =>
      rcases dictGet_strkey_shape ref hinv k (hks k (List.mem_cons_self k ks)) v hget
        with rfl | ⟨s, rfl⟩
      · simp only [truthy, if_neg (by simp : ¬(false = true))]
        exact ih (fun x hx => hks x (List.mem_cons_of_mem k hx))
      · cases s with
        | nil =>
          simp only [truthy, List.isEmpty_nil]
          exact ih (fun x hx => hks x (List.mem_cons_of_mem k hx))
        | cons c cs =>
          right
          exact ⟨c :: cs, by simp, by simp [truthy]⟩

/-! ## Claim theorems for ingestion and the parsers -/

/-- The date-only component set that namefile ingestion actually performs
on a string-or-unset start moment (the amended description for C5): on an
unset moment the value is adopted wholesale; on a string the existing time
part (default `00:00:00`) is preserved. -/
def dateComponentSet (sdt : Value) (d : PyStr) : Value :=
  match sdt with
  | .vnone => .vstr d
  | .vstr s => .vstr (d ++ 'T' ::
      (if 'T' ∈ s then (pySplitOn 'T' s).getLastD [] else "00:00:00".toList))
  | other => other

/-- C5 counterexample: with prior start moment `"2000-01-01T05:00:00"` and
a namefile header carrying `start_date:2020-06-15`, the found value is
`"2020-06-15"`, but ingestion applies it through the *date-only* setter,
yielding `"2020-06-15T05:00:00"` — not the `"2020-06-15"` that the claimed
full-moment set would store. -/
theorem nam_ingest_full_set_counterexample :
    read_attribs_from_namfile_header ["#start_date:2020-06-15\n".toList] =
      .ok [("start_date".toList, .vstr "2020-06-15".toList)] ∧
    attribs_from_namfile_header
        (MT.mk (.vstr "2000-01-01T05:00:00".toList) (.vstr "days".toList))
        (some ["#start_date:2020-06-15\n".toList]) =
      .ok (true, MT.mk (.vstr "2020-06-15T05:00:00".toList) (.vstr "days".toList)) ∧
    Value.vstr "2020-06-15T05:00:00".toList ≠ Value.vstr "2020-06-15".toList :=
  ⟨rfl, rfl, by decide⟩

/-- C5 amended: ingestion of `None` returns `false` and changes nothing;
otherwise (when the header parses, and for an unset or string-typed start
moment) the first of the aliases `start_date`, `start` that is present
with a non-empty value is applied through the *date-only component set*
(preserving any existing time-of-day), remaining aliases are ignored, the
`start_time` attribute is never set (its key cannot occur in the parser's
output), and `true` is returned. -/
theorem nam_ingest_amended (mt : MT) (lines : List PyStr) (ref : Dict)
    (hparse : read_attribs_from_namfile_header lines = .ok ref)
    (hstate : mt.start_datetime = .vnone ∨ ∃ s, mt.start_datetime = .vstr s) :
    attribs_from_namfile_header mt none = .ok (false, mt) ∧
    attribs_from_namfile_header mt (some lines) =
      .ok (true, { mt with start_datetime :=
        (match firstTruthy ref ["start_date".toList, "start".toList] with
         | some (.vstr d) => dateComponentSet mt.start_datetime d
         | _ => mt.start_datetime) }) := by
  have hinv := read_attribs_inv lines ref hparse
  have hst : dictGet ref "start_time".toList = none :=
    dictGet_unrecognized_none ref hinv _ (by decide)
  have hft : firstTruthy ref ["start_time".toList] = none := by
    rw [firstTruthy, hst, firstTruthy]
  refine ⟨rfl, ?_⟩
  rcases firstTruthy_str_aliases ref hinv ["start_date".toList, "start".toList]
      (by decide) with hnone | ⟨d, hd, hsome⟩
  · simp only [attribs_from_namfile_header, hparse, hnone, hft]
  · simp only [attribs_from_namfile_header, hparse, hsome, hft]
    rcases hstate with hu | ⟨s, hs⟩
    · rw [hu]; rfl
    · rw [hs]; rfl

/-- Witness for C5's amended theorem: unset start moment, header line
`#start:2020-06-15`. -/
theorem nam_ingest_amended_witness :
    ((MT.mk Value.vnone (Value.vstr "days".toList)).start_datetime = Value.vnone ∨
      ∃ s, (MT.mk Value.vnone (Value.vstr "days".toList)).start_datetime =
        Value.vstr s) ∧
    (attribs_from_namfile_header (MT.mk Value.vnone (Value.vstr "days".toList)) none =
       .ok (false, MT.mk Value.vnone (Value.vstr "days".toList)) ∧
     attribs_from_namfile_header (MT.mk Value.vnone (Value.vstr "days".toList))
         (some ["#start:2020-06-15\n".toList]) =
       .ok (true, { MT.mk Value.vnone (Value.vstr "days".toList) with start_datetime :=
         (match firstTruthy [("start".toList, Value.vstr "2020-06-15".toList)]
             ["start_date".toList, "start".toList] with
          | some (.vstr d) =>
              dateComponentSet (MT.mk Value.vnone (Value.vstr "days".toList)).start_datetime d
          | _ => (MT.mk Value.vnone (Value.vstr "days".toList)).start_datetime) })) :=
  ⟨Or.inl rfl,
    nam_ingest_amended (MT.mk Value.vnone (Value.vstr "days".toList))
      ["#start:2020-06-15\n".toList]
      [("start".toList, Value.vstr "2020-06-15".toList)] rfl (Or.inl rfl)⟩

/-- C6 (code bug): the USGS reference parser's allow-list has no
`start_time` and no `time_units` key, although
`ModelTime.read_usgs_model_reference_file` maps exactly those keys onto
its attributes.  On a file carrying all three fields the parser returns
only `start_date`, so the core applies the start date but never the start
time-of-day or the time-unit label; a missing file returns `false`
unchanged. -/
theorem usgs_reference_file_keys_bug :
    read_usgs_model_reference_file
        ["start_date 2020-05-01\n".toList, "start_time 14:30:00\n".toList,
         "time_units days\n".toList] =
      .ok [("start_date".toList, .vstr "2020-05-01".toList)] ∧
    mt_read_usgs_model_reference_file (MT.mk .vnone (.vstr "days".toList))
        (some ["start_date 2020-05-01\n".toList, "start_time 14:30:00\n".toList,
          "time_units days\n".toList]) =
      .ok (true, MT.mk (.vstr "2020-05-01".toList) (.vstr "days".toList)) ∧
    mt_read_usgs_model_reference_file (MT.mk .vnone (.vstr "days".toList)) none =
      .ok (false, MT.mk .vnone (.vstr "days".toList)) :=
  ⟨rfl, rfl, rfl⟩

theorem namStep_ne_valueError (ref : Dict) (e : List PyStr) :
    namStep ref e ≠ .error .valueError := by
  rw [namStep]
  split
  · rename_i err heq
    split at heq
    · split at heq
      · injection heq with h'
        rw [← h']
        simp
      · exact absurd heq (by simp)
    · exact absurd heq (by simp)
  · split
    · simp
    · split <;> simp

theorem namFold_ne_valueError :
    ∀ (entries : List (List PyStr)) (ref : Dict),
      namFold ref entries ≠ .error .valueError := by
  intro entries
  induction entries with
  | nil => intro ref; rw [namFold]; simp
  | cons e rest ih =>
    intro ref
    rw [namFold]
    split
    · rename_i err heq
      intro hcon
      injection hcon with h'
      exact namStep_ne_valueError ref e (by rw [heq, h'])
    · exact ih _

/-- C9 counterexample: in the USGS reference parser the recognized key
`epsg` with the uncastable value `abc` raises `ValueError` to the caller
instead of the entry being dropped silently. -/
theorem usgs_cast_failure_counterexample :
    read_usgs_model_reference_file ["epsg abc\n".toList] = .error .valueError := rfl

/-- C9 amended: the namfile-header parser never surfaces `ValueError`
(a recognized key whose cast fails is dropped silently — e.g. `#epsg:abc`
yields an empty mapping), but the USGS reference parser applies its casts
unguarded, so a recognized key with an uncastable value raises
`ValueError`. -/
theorem cast_failure_handling (lines : List PyStr) :
    read_attribs_from_namfile_header lines ≠ .error .valueError ∧
    read_attribs_from_namfile_header ["#epsg:abc\n".toList] = .ok [] ∧
    read_usgs_model_reference_file ["epsg abc\n".toList] = .error .valueError :=
  ⟨namFold_ne_valueError _ _, rfl, rfl⟩

end Flopy
